import Mathlib

/-!
# Verification of the CredentialVault (`src/admin/js/crypto-utils.js`)

A shallow embedding of the credential vault of the admin dashboard: the
browser-fingerprint key base, the AES-GCM encrypt/decrypt pipeline over
base64-encoded `salt ‖ iv ‖ ciphertext+tag` records, and the
localStorage-backed credential accessors (`storeCredentials`,
`getCredentials`, `hasStoredCredentials`).

Modelling conventions:

* A JavaScript string is a sequence of UTF-16 code units, embedded as
  `List Nat` (each unit `< 0x10000`; lone surrogates are representable,
  exactly as in JS).
* Bytes are `Nat` values `< 256`; byte buffers are `List Nat` with
  boundedness hypotheses where they matter.
* Platform primitives that the vault calls (`TextEncoder`/`TextDecoder`,
  `btoa`/`atob`, `crypto.subtle` PBKDF2 and AES-GCM, `JSON.parse`/
  `JSON.stringify`, `localStorage`) are not part of the repository; they
  are modelled from their documented behaviour, ideally where the
  behaviour is cryptographic (see the doc comments on `deriveKey`,
  `subtleEncrypt`, `subtleDecrypt`).
* Fallible JS code (functions that can throw) returns `Option`; `none`
  is the thrown exception.
* Functions whose natural recursion is not structural take an explicit
  fuel argument so that they still evaluate inside the kernel; wrappers
  instantiate the fuel with the input length, which is always enough.
-/

/-- A JavaScript string: a finite sequence of UTF-16 code units. -/
abbrev JSString := List Nat

/-- UTF-8 encoding of one Unicode scalar value (1–4 bytes). -/
def utf8EncodeScalar (c : Nat) : List Nat :=
  if c < 0x80 then [c]
  else if c < 0x800 then [0xC0 + c / 64, 0x80 + c % 64]
  else if c < 0x10000 then [0xE0 + c / 4096, 0x80 + c / 64 % 64, 0x80 + c % 64]
  else [0xF0 + c / 262144, 0x80 + c / 4096 % 64, 0x80 + c / 64 % 64, 0x80 + c % 64]

/-- Fuelled worker for `utf8Encode`; one unit of fuel per UTF-16 code
unit consumed, so fuel `≥ s.length` never runs out. -/
def utf8EncodeGo : Nat → List Nat → List Nat
  | 0, _ => []
  | _ + 1, [] => []
  | f + 1, u :: rest =>
    if u < 0xD800 ∨ (0xE000 ≤ u ∧ u < 0x10000) then
      utf8EncodeScalar u ++ utf8EncodeGo f rest
    else if u < 0xDC00 then
      match rest with
      | v :: rest' =>
        if 0xDC00 ≤ v ∧ v < 0xE000 then
          utf8EncodeScalar (0x10000 + (u - 0xD800) * 1024 + (v - 0xDC00)) ++ utf8EncodeGo f rest'
        else
          [0xEF, 0xBF, 0xBD] ++ utf8EncodeGo f rest
      | [] => [0xEF, 0xBF, 0xBD]
    else if u < 0xE000 then [0xEF, 0xBF, 0xBD] ++ utf8EncodeGo f rest
    else utf8EncodeScalar u ++ utf8EncodeGo f rest

/-- Model of `new TextEncoder().encode(str)` (the vault's `stringToBuffer`):
WHATWG UTF-8 encoding of a UTF-16 code-unit sequence.  A high surrogate
followed by a low surrogate encodes the combined scalar; an unpaired
surrogate encodes as U+FFFD (`EF BF BD`), exactly as `TextEncoder` does. -/
def utf8Encode (s : List Nat) : List Nat := utf8EncodeGo s.length s

/-- Is `b` a UTF-8 continuation byte (`10xxxxxx`)? -/
def isCont (b : Nat) : Bool := 0x80 ≤ b && b < 0xC0

/-- Fuelled worker for `utf8Decode`; one unit of fuel per decoding step,
and every step consumes at least one byte. -/
def utf8DecodeGo : Nat → List Nat → List Nat
  | 0, _ => []
  | _ + 1, [] => []
  | f + 1, b :: rest =>
    if b < 0x80 then b :: utf8DecodeGo f rest
    else if 0xC2 ≤ b ∧ b < 0xE0 then
      match rest with
      | c1 :: rest' =>
        if isCont c1 then ((b - 0xC0) * 64 + (c1 - 0x80)) :: utf8DecodeGo f rest'
        else 0xFFFD :: utf8DecodeGo f rest
      | [] => [0xFFFD]
    else if 0xE0 ≤ b ∧ b < 0xF0 then
      match rest with
      | c1 :: c2 :: rest' =>
        if isCont c1 ∧ isCont c2 then
          ((b - 0xE0) * 4096 + (c1 - 0x80) * 64 + (c2 - 0x80)) :: utf8DecodeGo f rest'
        else 0xFFFD :: utf8DecodeGo f rest
      | _ => [0xFFFD]
    else if 0xF0 ≤ b ∧ b < 0xF5 then
      match rest with
      | c1 :: c2 :: c3 :: rest' =>
        if isCont c1 ∧ isCont c2 ∧ isCont c3 then
          let cp := (b - 0xF0) * 262144 + (c1 - 0x80) * 4096 + (c2 - 0x80) * 64 + (c3 - 0x80)
            - 0x10000
          (0xD800 + cp / 1024) :: (0xDC00 + cp % 1024) :: utf8DecodeGo f rest'
        else 0xFFFD :: utf8DecodeGo f rest
      | _ => [0xFFFD]
    else 0xFFFD :: utf8DecodeGo f rest

/-- Model of `new TextDecoder().decode(buffer)` (the vault's
`bufferToString`): UTF-8 decoding back to UTF-16 code units, astral
scalars becoming surrogate pairs.  Invalid sequences decode to U+FFFD;
only the behaviour on valid UTF-8 is relied on by any theorem below. -/
def utf8Decode (bs : List Nat) : List Nat := utf8DecodeGo bs.length bs

/-- A UTF-16 code-unit sequence is well formed when every unit is a valid
code unit (`< 0x10000`) and every surrogate occurs as part of a
high–low pair.  Genuine JS strings always satisfy the first condition;
the second excludes lone surrogates. -/
def wfUnits : List Nat → Bool
  | [] => true
  | u :: rest =>
    if u < 0xD800 ∨ (0xE000 ≤ u ∧ u < 0x10000) then wfUnits rest
    else if 0xD800 ≤ u ∧ u < 0xDC00 then
      match rest with
      | v :: rest' => (0xDC00 ≤ v && v < 0xE000) && wfUnits rest'
      | [] => false
    else false

/-! ## Base64 (`btoa` / `atob`)

The vault's `bufferToBase64` turns a byte buffer into a binary string
(one code unit per byte) and applies `btoa`; `base64ToBuffer` applies
`atob` and reads the code units back as bytes.  We model the composite
maps directly on byte lists.  `atob` throws on input it cannot decode,
hence `Option`. -/

/-- The base64 alphabet: sextet value to code unit. -/
def b64char (n : Nat) : Nat :=
  if n < 26 then 65 + n
  else if n < 52 then 97 + (n - 26)
  else if n < 62 then 48 + (n - 52)
  else if n = 62 then 43
  else 47

/-- Code unit back to sextet value; `none` for characters outside the
base64 alphabet (including `'='`, code 61). -/
def b64val (c : Nat) : Option Nat :=
  if 65 ≤ c ∧ c ≤ 90 then some (c - 65)
  else if 97 ≤ c ∧ c ≤ 122 then some (c - 71)
  else if 48 ≤ c ∧ c ≤ 57 then some (c + 4)
  else if c = 43 then some 62
  else if c = 47 then some 63
  else none

/-- Model of `bufferToBase64` (`String.fromCharCode` over the bytes, then
`btoa`): standard base64 with `'='` padding, three bytes per group. -/
def bufferToBase64 : List Nat → JSString
  | [] => []
  | [a] => [b64char (a / 4), b64char (a % 4 * 16), 61, 61]
  | [a, b] => [b64char (a / 4), b64char (a % 4 * 16 + b / 16), b64char (b % 16 * 4), 61]
  | a :: b :: c :: rest =>
    b64char (a / 4) :: b64char (a % 4 * 16 + b / 16) :: b64char (b % 16 * 4 + c / 64) ::
      b64char (c % 64) :: bufferToBase64 rest

/-- Model of `base64ToBuffer` (`atob`, then `charCodeAt` over the result):
decodes four-character groups, accepting `'='` padding only at the end
and rejecting characters outside the alphabet (`atob` throws there, which
the caller observes as an exception, i.e. `none`).  Unpadded final groups
and ASCII whitespace, which forgiving-base64 would also accept, never
arise from `bufferToBase64` and are not modelled. -/
def base64ToBuffer : JSString → Option (List Nat)
  | [] => some []
  | c1 :: c2 :: c3 :: c4 :: rest =>
    if rest = [] ∧ c3 = 61 ∧ c4 = 61 then
      match b64val c1, b64val c2 with
      | some s1, some s2 => some [s1 * 4 + s2 / 16]
      | _, _ => none
    else if rest = [] ∧ c4 = 61 then
      match b64val c1, b64val c2, b64val c3 with
      | some s1, some s2, some s3 => some [s1 * 4 + s2 / 16, s2 % 16 * 16 + s3 / 4]
      | _, _, _ => none
    else
      match b64val c1, b64val c2, b64val c3, b64val c4, base64ToBuffer rest with
      | some s1, some s2, some s3, some s4, some bs =>
        some ((s1 * 4 + s2 / 16) :: (s2 % 16 * 16 + s3 / 4) :: (s3 % 4 * 64 + s4) :: bs)
      | _, _, _, _, _ => none
  | _ => none

/-! ## Key derivation and AES-GCM (`crypto.subtle`)

Modelled from the spec: PBKDF2-HMAC-SHA256 and AES-GCM live in the Web
Crypto API, outside this repository.  The spec (§6) requires of them only
a deterministic KDF and an AEAD that "simultaneously verifies integrity
(the authentication tag) and authenticity", signalling authentication
failure.  We model them ideally:

* the derived key is the (injective) pair of the PBKDF2 inputs — key
  material and per-record salt;
* AES-GCM encryption appends a 16-byte authentication tag to the
  plaintext; the tag binds key material, salt, iv and plaintext through
  a modulo-256 digest, so that (as for a real AEAD tag) any single-byte
  change of salt, iv, ciphertext or tag breaks verification;
* AES-GCM decryption succeeds exactly on genuine `(key, iv)` encryptions
  (the ideal-AEAD authenticity guarantee) and otherwise reports failure
  (`none`, the thrown `OperationError`). -/

/-- The AES-GCM key handle returned by `deriveKey`: determined exactly by
the PBKDF2 inputs. -/
structure AesKey where
  material : List Nat
  salt : List Nat
deriving DecidableEq

/-- Model of the vault's `deriveKey`: PBKDF2-HMAC-SHA256 (100000
iterations) over the UTF-8 bytes of the key base, parameterised by the
per-record salt — ideally, the injective pair of its two inputs. -/
def deriveKey (keyBase : JSString) (salt : List Nat) : AesKey :=
  ⟨utf8Encode keyBase, salt⟩

/-- The 16-byte authentication tag of the ideal AEAD: a mod-256 digest of
key material, salt, iv and plaintext, padded to the 16-byte tag length
of AES-GCM. -/
def gcmTag (key : AesKey) (iv plaintext : List Nat) : List Nat :=
  ((key.material.sum + key.salt.sum + iv.sum + plaintext.sum) % 256) :: List.replicate 15 0

/-- Model of `crypto.subtle.encrypt({name:'AES-GCM', iv}, key, data)`:
ciphertext-plus-tag, `data.length + 16` bytes long as for real AES-GCM. -/
def subtleEncrypt (key : AesKey) (iv plaintext : List Nat) : List Nat :=
  plaintext ++ gcmTag key iv plaintext

/-- Model of `crypto.subtle.decrypt({name:'AES-GCM', iv}, key, data)`:
succeeds exactly on genuine encryptions under the same key and iv,
returning their plaintext; `none` is the thrown `OperationError`. -/
def subtleDecrypt (key : AesKey) (iv data : List Nat) : Option (List Nat) :=
  if 16 ≤ data.length then
    if subtleEncrypt key iv (data.take (data.length - 16)) = data then
      some (data.take (data.length - 16))
    else none
  else none

/-! ## Browser fingerprint (`generateKeyBase`) and the vault object -/

/-- Convenience: the code units of an ASCII Lean string literal. -/
def strToUnits (s : String) : JSString := s.data.map Char.toNat

/-- Fuelled worker for `natToUnits`. -/
def natToUnitsGo : Nat → Nat → List Nat
  | 0, _ => []
  | f + 1, m => if m < 10 then [48 + m] else natToUnitsGo f (m / 10) ++ [48 + m % 10]

/-- Decimal digits of a natural number, as code units (JS `String(n)`). -/
def natToUnits (n : Nat) : JSString := natToUnitsGo (n + 1) n

/-- JS `String(i)` for an integer (`getTimezoneOffset` can be negative). -/
def intToUnits (i : Int) : JSString :=
  if i < 0 then 45 :: natToUnits i.natAbs else natToUnits i.toNat

/-- The ambient browser environment read by `generateKeyBase`.  Attributes
that real browsers may leave `undefined` are `Option`s. -/
structure Env where
  userAgent : Option JSString
  language : Option JSString
  screenWidth : Nat
  screenHeight : Nat
  timezoneOffset : Int
  hardwareConcurrency : Option Nat
deriving DecidableEq

/-- `Array.prototype.join` renders an `undefined` element as the empty
string. -/
def joinElem : Option JSString → JSString
  | some s => s
  | none => []

/-- `navigator.hardwareConcurrency || 'unknown'`: the JS `||` falls back
for every falsy value, i.e. for `undefined` and for `0`. -/
def hcComponent : Option Nat → JSString
  | some n => if n = 0 then strToUnits "unknown" else natToUnits n
  | none => strToUnits "unknown"

/-- `Array.prototype.join('|')`: elements separated by `'|'` (code 124). -/
def joinPipe : List JSString → JSString
  | [] => []
  | [s] => s
  | s :: t :: rest => s ++ 124 :: joinPipe (t :: rest)

/-- Model of `generateKeyBase`: the fingerprint components joined with
`'|'`. -/
def generateKeyBase (env : Env) : JSString :=
  joinPipe
    [joinElem env.userAgent,
     joinElem env.language,
     natToUnits env.screenWidth ++ [120] ++ natToUnits env.screenHeight,
     intToUnits env.timezoneOffset,
     hcComponent env.hardwareConcurrency,
     strToUnits "HarryTien-Admin-v1"]

/-- The `CryptoUtils` object: its only instance state is the key base
captured by the constructor. -/
structure CryptoUtils where
  keyBase : JSString
deriving DecidableEq

/-- The constructor: `this.keyBase = this.generateKeyBase()` — the
fingerprint is computed once, from the environment at construction
time. -/
def CryptoUtils.create (envAtConstruction : Env) : CryptoUtils :=
  ⟨generateKeyBase envAtConstruction⟩

/-- The vault's `stringToBuffer`: `new TextEncoder().encode(str)`. -/
def stringToBuffer (s : JSString) : List Nat := utf8Encode s

/-- The vault's `bufferToString`: `new TextDecoder().decode(buffer)`. -/
def bufferToString (b : List Nat) : JSString := utf8Decode b

/-- Model of `CryptoUtils.encrypt`: fresh random `salt` (16 bytes) and
`iv` (12 bytes) are drawn by `crypto.getRandomValues` and passed here
explicitly; the result is `base64(salt ‖ iv ‖ ciphertext+tag)`. -/
def CryptoUtils.encrypt (cu : CryptoUtils) (salt iv : List Nat) (plaintext : JSString) :
    JSString :=
  bufferToBase64 (salt ++ iv ++ subtleEncrypt (deriveKey cu.keyBase salt) iv
    (stringToBuffer plaintext))

/-- The byte-level part of `decrypt`, after `base64ToBuffer`: slice out
`salt = combined.slice(0,16)`, `iv = combined.slice(16,28)`,
`encrypted = combined.slice(28)`, re-derive the key and decrypt. -/
def CryptoUtils.decryptCombined (cu : CryptoUtils) (combined : List Nat) : Option JSString :=
  match subtleDecrypt (deriveKey cu.keyBase (combined.take 16)) ((combined.drop 16).take 12)
      (combined.drop 28) with
  | none => none
  | some decrypted => some (bufferToString decrypted)

/-- Model of `CryptoUtils.decrypt`: any throw inside the `try` (invalid
base64, AES-GCM authentication failure) is caught and re-raised as the
single "Failed to decrypt data" error, i.e. `none`. -/
def CryptoUtils.decrypt (cu : CryptoUtils) (encryptedBase64 : JSString) : Option JSString :=
  match base64ToBuffer encryptedBase64 with
  | none => none
  | some combined => cu.decryptCombined combined

/-- Modelled from the spec: `encrypt` as it would behave if the
FingerprintSeed were "recomputed fresh on every operation" (spec §3),
i.e. derived from the environment at the time of the call. -/
def encryptFreshSeed (envAtCall : Env) (salt iv : List Nat) (plaintext : JSString) : JSString :=
  CryptoUtils.encrypt ⟨generateKeyBase envAtCall⟩ salt iv plaintext

/-- Modelled from the spec: `decrypt` with a seed recomputed at call
time, the per-operation-freshness reading of spec §3. -/
def decryptFreshSeed (envAtCall : Env) (record : JSString) : Option JSString :=
  CryptoUtils.decrypt ⟨generateKeyBase envAtCall⟩ record

/-! ## JSON (`JSON.parse` / `JSON.stringify`)

Modelled from the spec: the credential payload is "serialized to a
canonical text form (e.g., JSON object)" and the legacy slot "must be
accepted as-is without validation beyond `JSON.parse` succeeding"; the
primitives themselves live in the JS runtime, not in the repository.
`jnum` stores the source lexeme of a number; `JSON.stringify` would
re-render the numeric value instead, but no credential payload and no
theorem below exercises that difference.  Object members keep their
parse order; duplicate keys (last-wins in JS) are likewise never
exercised. -/

inductive Json where
  | jnull
  | jbool (b : Bool)
  | jnum (lexeme : List Nat)
  | jstr (s : List Nat)
  | jarr (elems : List Json)
  | jobj (members : List (List Nat × Json))

/-- JSON whitespace: space, tab, line feed, carriage return. -/
def isJsonWs (c : Nat) : Bool := c = 32 || c = 9 || c = 10 || c = 13

/-- Skip leading JSON whitespace. -/
def skipWs (s : List Nat) : List Nat := s.dropWhile isJsonWs

/-- ASCII decimal digit? -/
def isDigit (c : Nat) : Bool := 48 ≤ c && c ≤ 57

/-- Hex digit value of a code unit, `none` if not a hex digit. -/
def hexVal (c : Nat) : Option Nat :=
  if 48 ≤ c ∧ c ≤ 57 then some (c - 48)
  else if 65 ≤ c ∧ c ≤ 70 then some (c - 55)
  else if 97 ≤ c ∧ c ≤ 102 then some (c - 87)
  else none

/-- Parse the body of a JSON string after the opening quote; returns the
decoded units and the input after the closing quote. -/
def parseJsonStringBody : Nat → List Nat → Option (List Nat × List Nat)
  | 0, _ => none
  | _ + 1, [] => none
  | f + 1, c :: rest =>
    if c = 34 then some ([], rest)
    else if c = 92 then
      match rest with
      | [] => none
      | e :: rest' =>
        if e = 34 ∨ e = 92 ∨ e = 47 then
          (parseJsonStringBody f rest').map (fun (u, r) => (e :: u, r))
        else if e = 98 then (parseJsonStringBody f rest').map (fun (u, r) => (8 :: u, r))
        else if e = 102 then (parseJsonStringBody f rest').map (fun (u, r) => (12 :: u, r))
        else if e = 110 then (parseJsonStringBody f rest').map (fun (u, r) => (10 :: u, r))
        else if e = 114 then (parseJsonStringBody f rest').map (fun (u, r) => (13 :: u, r))
        else if e = 116 then (parseJsonStringBody f rest').map (fun (u, r) => (9 :: u, r))
        else if e = 117 then
          match rest' with
          | h1 :: h2 :: h3 :: h4 :: rest'' =>
            match hexVal h1, hexVal h2, hexVal h3, hexVal h4 with
            | some v1, some v2, some v3, some v4 =>
              (parseJsonStringBody f rest'').map
                (fun (u, r) => ((v1 * 4096 + v2 * 256 + v3 * 16 + v4) :: u, r))
            | _, _, _, _ => none
          | _ => none
        else none
    else if c < 32 then none
    else (parseJsonStringBody f rest).map (fun (u, r) => (c :: u, r))

/-- Parse a JSON number, returning its lexeme and the rest. -/
def parseJsonNumber (s : List Nat) : Option (List Nat × List Nat) :=
  let (sign, s1) := match s with
    | 45 :: t => ([45], t)
    | _ => ([], s)
  match s1 with
  | [] => none
  | d :: t =>
    if d = 48 then
      match t with
      | d' :: _ => if isDigit d' then none else afterInt (sign ++ [48]) t
      | [] => afterInt (sign ++ [48]) t
    else if isDigit d then
      afterInt (sign ++ [d] ++ t.takeWhile isDigit) (t.dropWhile isDigit)
    else none
where
  afterExpDigits (pre : List Nat) (s : List Nat) : Option (List Nat × List Nat) :=
    match s.takeWhile isDigit with
    | [] => none
    | ds => some (pre ++ ds, s.dropWhile isDigit)
  afterFrac (pre : List Nat) (s : List Nat) : Option (List Nat × List Nat) :=
    match s with
    | e :: t =>
      if e = 101 ∨ e = 69 then
        match t with
        | sg :: t' =>
          if sg = 43 ∨ sg = 45 then afterExpDigits (pre ++ [e, sg]) t'
          else afterExpDigits (pre ++ [e]) t
        | [] => none
      else some (pre, s)
    | [] => some (pre, s)
  afterInt (pre : List Nat) (s : List Nat) : Option (List Nat × List Nat) :=
    match s with
    | 46 :: t =>
      match t.takeWhile isDigit with
      | [] => none
      | ds => afterFrac (pre ++ [46] ++ ds) (t.dropWhile isDigit)
    | _ => afterFrac pre s

mutual

/-- Parse one JSON value (leading whitespace already skipped). -/
def parseJsonValue : Nat → List Nat → Option (Json × List Nat)
  | 0, _ => none
  | f + 1, s =>
    match s with
    | [] => none
    | c :: rest =>
      if c = 110 then
        match rest with
        | 117 :: 108 :: 108 :: r => some (.jnull, r)
        | _ => none
      else if c = 116 then
        match rest with
        | 114 :: 117 :: 101 :: r => some (.jbool true, r)
        | _ => none
      else if c = 102 then
        match rest with
        | 97 :: 108 :: 115 :: 101 :: r => some (.jbool false, r)
        | _ => none
      else if c = 34 then
        (parseJsonStringBody rest.length rest).map (fun (u, r) => (.jstr u, r))
      else if c = 91 then
        match skipWs rest with
        | 93 :: r => some (.jarr [], r)
        | s' => (parseJsonElems f s').map (fun (xs, r) => (.jarr xs, r))
      else if c = 123 then
        match skipWs rest with
        | 125 :: r => some (.jobj [], r)
        | s' => (parseJsonMembers f s').map (fun (ms, r) => (.jobj ms, r))
      else if c = 45 ∨ isDigit c then
        (parseJsonNumber s).map (fun (lx, r) => (.jnum lx, r))
      else none

/-- Parse a non-empty comma-separated list of array elements and the
closing `]`. -/
def parseJsonElems : Nat → List Nat → Option (List Json × List Nat)
  | 0, _ => none
  | f + 1, s =>
    match parseJsonValue f s with
    | none => none
    | some (v, r) =>
      match skipWs r with
      | 44 :: r' => (parseJsonElems f (skipWs r')).map (fun (xs, r'') => (v :: xs, r''))
      | 93 :: r' => some ([v], r')
      | _ => none

/-- Parse a non-empty comma-separated list of object members and the
closing `}`. -/
def parseJsonMembers : Nat → List Nat → Option (List (List Nat × Json) × List Nat)
  | 0, _ => none
  | f + 1, s =>
    match s with
    | 34 :: rest =>
      match parseJsonStringBody rest.length rest with
      | none => none
      | some (k, r) =>
        match skipWs r with
        | 58 :: r' =>
          match parseJsonValue f (skipWs r') with
          | none => none
          | some (v, r'') =>
            match skipWs r'' with
            | 44 :: r3 => (parseJsonMembers f (skipWs r3)).map
                (fun (ms, r4) => ((k, v) :: ms, r4))
            | 125 :: r3 => some ([(k, v)], r3)
            | _ => none
        | _ => none
    | _ => none

end

/-- Model of `JSON.parse(text)`: `none` is the thrown `SyntaxError`. -/
def jsonParse (text : JSString) : Option Json :=
  match parseJsonValue (2 * text.length + 2) (skipWs text) with
  | some (v, rest) => if skipWs rest = [] then some v else none
  | none => none

/-- Lowercase hex digit of a nibble, as emitted in `\u00XX` escapes. -/
def hexDigit (n : Nat) : Nat := if n < 10 then 48 + n else 87 + n

/-- String escaping as in `JSON.stringify`. -/
def escapeUnits : List Nat → List Nat
  | [] => []
  | u :: rest =>
    (if u = 34 then [92, 34]
     else if u = 92 then [92, 92]
     else if u = 8 then [92, 98]
     else if u = 12 then [92, 102]
     else if u = 10 then [92, 110]
     else if u = 13 then [92, 114]
     else if u = 9 then [92, 116]
     else if u < 32 then [92, 117, 48, 48, hexDigit (u / 16), hexDigit (u % 16)]
     else [u]) ++ escapeUnits rest

/-- A quoted JSON string literal. -/
def quoteUnits (s : List Nat) : List Nat := 34 :: escapeUnits s ++ [34]

mutual

/-- Model of `JSON.stringify(value)` (no spacing, members in order). -/
def jsonStringify : Json → JSString
  | .jnull => strToUnits "null"
  | .jbool true => strToUnits "true"
  | .jbool false => strToUnits "false"
  | .jnum lx => lx
  | .jstr s => quoteUnits s
  | .jarr xs => 91 :: stringifyElems xs ++ [93]
  | .jobj ms => 123 :: stringifyMembers ms ++ [125]

/-- Comma-joined array elements. -/
def stringifyElems : List Json → JSString
  | [] => []
  | [x] => jsonStringify x
  | x :: y :: xs => jsonStringify x ++ [44] ++ stringifyElems (y :: xs)

/-- Comma-joined `"key":value` members. -/
def stringifyMembers : List (List Nat × Json) → JSString
  | [] => []
  | [(k, v)] => quoteUnits k ++ [58] ++ jsonStringify v
  | (k, v) :: m :: ms => quoteUnits k ++ [58] ++ jsonStringify v ++ [44] ++ stringifyMembers (m :: ms)

end

/-! ## The storage slots and credential accessors

`localStorage` restricted to the two keys the vault owns:
`'harrytien_admin_credentials_encrypted'` (the current slot) and
`'harrytien_admin_credentials'` (the legacy slot).  `getItem` returns
`null` (`Option.none`) for an absent key.  The fresh random salt and iv
that `encrypt` would draw are passed to the operations that may encrypt. -/

structure Storage where
  /-- `'harrytien_admin_credentials_encrypted'` -/
  encryptedSlot : Option JSString
  /-- `'harrytien_admin_credentials'` -/
  legacySlot : Option JSString
deriving DecidableEq

/-- Model of `storeCredentials`: serialize, encrypt, write the current
slot, remove the legacy slot. -/
def CryptoUtils.storeCredentials (cu : CryptoUtils) (salt iv : List Nat) (credentials : Json)
    (st : Storage) : Storage :=
  { st with
    encryptedSlot := some (cu.encrypt salt iv (jsonStringify credentials)),
    legacySlot := none }

/-- The legacy-migration half of `getCredentials`, reached when the
current slot is falsy (absent or the empty string): parse the legacy
value, re-store it encrypted and delete the legacy slot; on a parse
error delete the legacy slot and return `null`. -/
def CryptoUtils.getCredentialsLegacy (cu : CryptoUtils) (salt iv : List Nat) (st : Storage) :
    Option Json × Storage :=
  match st.legacySlot with
  | some oldCredentials =>
    if oldCredentials = [] then (none, st)
    else
      match jsonParse oldCredentials with
      | some credentials =>
        (some credentials,
         { cu.storeCredentials salt iv credentials st with legacySlot := none })
      | none => (none, { st with legacySlot := none })
  | none => (none, st)

/-- Model of `getCredentials`: the current slot wins when truthy; a
decryption or parse failure there deletes the current slot and returns
`null`; otherwise fall through to the legacy slot. -/
def CryptoUtils.getCredentials (cu : CryptoUtils) (salt iv : List Nat) (st : Storage) :
    Option Json × Storage :=
  match st.encryptedSlot with
  | some encrypted =>
    if encrypted = [] then cu.getCredentialsLegacy salt iv st
    else
      match cu.decrypt encrypted with
      | some json =>
        match jsonParse json with
        | some credentials => (some credentials, st)
        | none => (none, { st with encryptedSlot := none })
      | none => (none, { st with encryptedSlot := none })
  | none => cu.getCredentialsLegacy salt iv st

/-- Model of `clearCredentials`: delete both slots. -/
def clearCredentials (_st : Storage) : Storage := ⟨none, none⟩

/-- Model of `hasStoredCredentials`: `getItem(...) !== null` on either
slot — a pure existence check; the empty string counts as present. -/
def hasStoredCredentials (st : Storage) : Bool :=
  st.encryptedSlot.isSome || st.legacySlot.isSome

/-- The UTF-16 code units of a Unicode scalar value: itself on the BMP,
a surrogate pair above it. -/
def utf16Units (c : Nat) : List Nat :=
  if c < 0x10000 then [c]
  else [0xD800 + (c - 0x10000) / 1024, 0xDC00 + (c - 0x10000) % 1024]

/-- Concrete values used by the closed witness and counterexample
theorems: an all-zero 16-byte salt, an all-one 12-byte iv, and two
environments that differ only in the timezone offset (as across a DST
transition within one session). -/
def salt0 : List Nat := List.replicate 16 0

/-- A concrete 12-byte iv. -/
def iv0 : List Nat := List.replicate 12 1

/-- A concrete environment (timezone offset 0). -/
def env1c : Env := ⟨some (strToUnits "ua"), some (strToUnits "en"), 800, 600, 0, some 4⟩

/-- The same environment after the timezone offset changed to 60. -/
def env2c : Env := ⟨some (strToUnits "ua"), some (strToUnits "en"), 800, 600, 60, some 4⟩

/-- The decoded bytes of a concrete record, used by the tamper witness. -/
def recordBytes0 : List Nat :=
  salt0 ++ iv0 ++ subtleEncrypt (deriveKey [107] salt0) iv0 (stringToBuffer [104, 105])

/-! ## Lemmas: base64 round trip -/

theorem b64val_b64char : ∀ n, n < 64 → b64val (b64char n) = some n := by decide

theorem b64char_ne_eq : ∀ n, n < 64 → b64char n ≠ 61 := by decide

theorem base64_roundtrip (bs : List Nat) (h : ∀ b ∈ bs, b < 256) :
    base64ToBuffer (bufferToBase64 bs) = some bs := by
  induction bs using bufferToBase64.induct with
  | case1 => rfl
  | case2 a =>
    have ha : a < 256 := h a (by simp)
    simp only [bufferToBase64, base64ToBuffer]
    rw [if_pos (by simp)]
    rw [b64val_b64char _ (by omega), b64val_b64char _ (by omega)]
    simp only [Option.some.injEq, List.cons.injEq, and_true]
    omega
  | case3 a b =>
    have ha : a < 256 := h a (by simp)
    have hb : b < 256 := h b (by simp)
    simp only [bufferToBase64, base64ToBuffer]
    rw [if_neg (by rintro ⟨-, h3, -⟩; exact b64char_ne_eq _ (by omega) h3)]
    rw [if_pos (by simp)]
    rw [b64val_b64char _ (by omega), b64val_b64char _ (by omega), b64val_b64char _ (by omega)]
    simp only [Option.some.injEq, List.cons.injEq, and_true]
    omega
  | case4 a b c rest ih =>
    have ha : a < 256 := h a (by simp)
    have hb : b < 256 := h b (by simp)
    have hc : c < 256 := h c (by simp)
    have hrest : ∀ x ∈ rest, x < 256 := fun x hx => h x (by simp [hx])
    simp only [bufferToBase64, base64ToBuffer]
    rw [if_neg (by rintro ⟨-, h3, -⟩; exact b64char_ne_eq _ (by omega) h3)]
    rw [if_neg (by rintro ⟨-, h4⟩; exact b64char_ne_eq _ (by omega) h4)]
    rw [b64val_b64char _ (by omega), b64val_b64char _ (by omega), b64val_b64char _ (by omega),
      b64val_b64char _ (by omega), ih hrest]
    simp only [Option.some.injEq, List.cons.injEq, and_true]
    refine ⟨by omega, by omega, by omega⟩

/-! ## Lemmas: UTF-8 round trip -/

theorem utf8EncodeGo_nil : ∀ f, utf8EncodeGo f [] = [] := by
  intro f; cases f <;> rfl

theorem utf8DecodeGo_nil : ∀ f, utf8DecodeGo f [] = [] := by
  intro f; cases f <;> rfl

theorem utf8EncodeGo_mono :
    ∀ f g s, s.length ≤ f → s.length ≤ g → utf8EncodeGo f s = utf8EncodeGo g s := by
  intro f
  induction f with
  | zero =>
    intro g s hf _
    cases s with
    | nil => rw [utf8EncodeGo_nil, utf8EncodeGo_nil]
    | cons u rest => simp at hf
  | succ f ih =>
    intro g s hf hg
    cases s with
    | nil => rw [utf8EncodeGo_nil, utf8EncodeGo_nil]
    | cons u rest =>
      cases g with
      | zero => simp at hg
      | succ g =>
        have h1 : rest.length ≤ f := by simp at hf; omega
        have h2 : rest.length ≤ g := by simp at hg; omega
        simp only [utf8EncodeGo]
        by_cases hu0 : u < 0xD800 ∨ (0xE000 ≤ u ∧ u < 0x10000)
        · simp only [if_pos hu0, ih g rest h1 h2]
        · simp only [if_neg hu0]
          by_cases hu1 : u < 0xDC00
          · simp only [if_pos hu1]
            cases rest with
            | nil => rfl
            | cons v rest' =>
              have h1' : rest'.length ≤ f := by simp at h1; omega
              have h2' : rest'.length ≤ g := by simp at h2; omega
              by_cases hv : 0xDC00 ≤ v ∧ v < 0xE000
              · simp only [if_pos hv, ih g rest' h1' h2']
              · simp only [if_neg hv, ih g (v :: rest') h1 h2]
          · simp only [if_neg hu1]
            by_cases hu2 : u < 0xE000
            · simp only [if_pos hu2, ih g rest h1 h2]
            · simp only [if_neg hu2, ih g rest h1 h2]

theorem utf8DecodeGo_mono :
    ∀ f g bs, bs.length ≤ f → bs.length ≤ g → utf8DecodeGo f bs = utf8DecodeGo g bs := by
  intro f
  induction f with
  | zero =>
    intro g bs hf _
    cases bs with
    | nil => rw [utf8DecodeGo_nil, utf8DecodeGo_nil]
    | cons b rest => simp at hf
  | succ f ih =>
    intro g bs hf hg
    cases bs with
    | nil => rw [utf8DecodeGo_nil, utf8DecodeGo_nil]
    | cons b rest =>
      cases g with
      | zero => simp at hg
      | succ g =>
        have h1 : rest.length ≤ f := by simp at hf; omega
        have h2 : rest.length ≤ g := by simp at hg; omega
        simp only [utf8DecodeGo]
        by_cases hb0 : b < 0x80
        · simp only [if_pos hb0, ih g rest h1 h2]
        · simp only [if_neg hb0]
          by_cases hb1 : 0xC2 ≤ b ∧ b < 0xE0
          · simp only [if_pos hb1]
            cases rest with
            | nil => rfl
            | cons c1 rest' =>
              have h1' : rest'.length ≤ f := by simp at h1; omega
              have h2' : rest'.length ≤ g := by simp at h2; omega
              by_cases hc : isCont c1
              · simp only [if_pos hc, ih g rest' h1' h2']
              · simp only [if_neg hc, ih g (c1 :: rest') h1 h2]
          · simp only [if_neg hb1]
            by_cases hb2 : 0xE0 ≤ b ∧ b < 0xF0
            · simp only [if_pos hb2]
              cases rest with
              | nil => rfl
              | cons c1 rest2 =>
                cases rest2 with
                | nil => rfl
                | cons c2 rest' =>
                  have h1' : rest'.length ≤ f := by simp at h1; omega
                  have h2' : rest'.length ≤ g := by simp at h2; omega
                  by_cases hc : isCont c1 ∧ isCont c2
                  · simp only [if_pos hc, ih g rest' h1' h2']
                  · simp only [if_neg hc, ih g (c1 :: c2 :: rest') h1 h2]
            · simp only [if_neg hb2]
              by_cases hb3 : 0xF0 ≤ b ∧ b < 0xF5
              · simp only [if_pos hb3]
                cases rest with
                | nil => rfl
                | cons c1 rest2 =>
                  cases rest2 with
                  | nil => rfl
                  | cons c2 rest3 =>
                    cases rest3 with
                    | nil => rfl
                    | cons c3 rest' =>
                      have h1' : rest'.length ≤ f := by simp at h1; omega
                      have h2' : rest'.length ≤ g := by simp at h2; omega
                      by_cases hc : isCont c1 ∧ isCont c2 ∧ isCont c3
                      · simp only [if_pos hc, ih g rest' h1' h2']
                      · simp only [if_neg hc, ih g (c1 :: c2 :: c3 :: rest') h1 h2]
              · simp only [if_neg hb3, ih g rest h1 h2]

theorem utf8EncodeScalar_lt (c : Nat) (hc : c < 0x110000) :
    ∀ b ∈ utf8EncodeScalar c, b < 256 := by
  intro b hb
  by_cases h1 : c < 0x80
  · simp [utf8EncodeScalar, h1] at hb; omega
  · by_cases h2 : c < 0x800
    · simp [utf8EncodeScalar, h1, h2] at hb
      rcases hb with rfl | rfl <;> omega
    · by_cases h3 : c < 0x10000
      · simp [utf8EncodeScalar, h1, h2, h3] at hb
        rcases hb with rfl | rfl | rfl <;> omega
      · simp [utf8EncodeScalar, h1, h2, h3] at hb
        rcases hb with rfl | rfl | rfl | rfl <;> omega

theorem utf8EncodeGo_lt :
    ∀ f s, (∀ u ∈ s, u < 0x10000) → ∀ b ∈ utf8EncodeGo f s, b < 256 := by
  intro f
  induction f with
  | zero =>
    intro s _ b hb
    simp only [show utf8EncodeGo 0 s = [] from rfl] at hb
    exact absurd hb (List.not_mem_nil b)
  | succ f ih =>
    intro s hs b hb
    cases s with
    | nil => simp [utf8EncodeGo_nil] at hb
    | cons u rest =>
      have hu : u < 0x10000 := hs u (by simp)
      have hrest : ∀ x ∈ rest, x < 0x10000 := fun x hx => hs x (by simp [hx])
      simp only [utf8EncodeGo] at hb
      by_cases hu0 : u < 0xD800 ∨ (0xE000 ≤ u ∧ u < 0x10000)
      · simp only [if_pos hu0] at hb
        rcases List.mem_append.1 hb with h | h
        · exact utf8EncodeScalar_lt u (by omega) b h
        · exact ih rest hrest b h
      · simp only [if_neg hu0] at hb
        by_cases hu1 : u < 0xDC00
        · simp only [if_pos hu1] at hb
          cases rest with
          | nil => simp at hb; omega
          | cons v rest' =>
            have hrest' : ∀ x ∈ rest', x < 0x10000 := fun x hx => hrest x (by simp [hx])
            by_cases hv : 0xDC00 ≤ v ∧ v < 0xE000
            · simp only [if_pos hv] at hb
              rcases List.mem_append.1 hb with h | h
              · exact utf8EncodeScalar_lt _ (by omega) b h
              · exact ih rest' hrest' b h
            · simp only [if_neg hv] at hb
              rcases List.mem_append.1 hb with h | h
              · simp at h; omega
              · exact ih _ hrest b h
        · simp only [if_neg hu1, if_pos (show u < 0xE000 by omega)] at hb
          rcases List.mem_append.1 hb with h | h
          · simp at h; omega
          · exact ih rest hrest b h

theorem utf8Encode_lt (s : List Nat) (hs : ∀ u ∈ s, u < 0x10000) :
    ∀ b ∈ utf8Encode s, b < 256 :=
  utf8EncodeGo_lt s.length s hs

theorem utf8Decode_scalar_append (c : Nat) (bs : List Nat)
    (hc : c < 0xD800 ∨ (0xE000 ≤ c ∧ c < 0x110000)) :
    utf8Decode (utf8EncodeScalar c ++ bs) = utf16Units c ++ utf8Decode bs := by
  by_cases h1 : c < 0x80
  · rw [show utf8EncodeScalar c = [c] by simp [utf8EncodeScalar, if_pos h1]]
    unfold utf8Decode
    simp only [List.cons_append, List.nil_append, List.length_cons]
    simp only [utf8DecodeGo, if_pos h1]
    rw [utf16Units, if_pos (by omega)]
    simp
  · by_cases h2 : c < 0x800
    · rw [show utf8EncodeScalar c = [0xC0 + c / 64, 0x80 + c % 64] by
        simp [utf8EncodeScalar, if_neg h1, if_pos h2]]
      unfold utf8Decode
      simp only [List.cons_append, List.nil_append, List.length_cons]
      simp only [utf8DecodeGo]
      rw [if_neg (by omega), if_pos (by omega)]
      rw [if_pos (by simp only [isCont, Bool.and_eq_true, decide_eq_true_eq]; omega)]
      rw [utf8DecodeGo_mono (bs.length + 1) bs.length bs (by omega) le_rfl]
      rw [utf16Units, if_pos (by omega)]
      simp only [List.cons_append, List.nil_append, List.cons.injEq, and_true, true_and]
      omega
    · by_cases h3 : c < 0x10000
      · rw [show utf8EncodeScalar c = [0xE0 + c / 4096, 0x80 + c / 64 % 64, 0x80 + c % 64] by
          simp [utf8EncodeScalar, if_neg h1, if_neg h2, if_pos h3]]
        unfold utf8Decode
        simp only [List.cons_append, List.nil_append, List.length_cons]
        simp only [utf8DecodeGo]
        rw [if_neg (by omega), if_neg (by omega), if_pos (by omega)]
        rw [if_pos (by
          constructor <;> simp only [isCont, Bool.and_eq_true, decide_eq_true_eq] <;> omega)]
        rw [utf8DecodeGo_mono (bs.length + 2) bs.length bs (by omega) le_rfl]
        rw [utf16Units, if_pos (by omega)]
        simp only [List.cons_append, List.nil_append, List.cons.injEq, and_true, true_and]
        omega
      · have h4 : 0x10000 ≤ c ∧ c < 0x110000 := by omega
        rw [show utf8EncodeScalar c
            = [0xF0 + c / 262144, 0x80 + c / 4096 % 64, 0x80 + c / 64 % 64, 0x80 + c % 64] by
          simp [utf8EncodeScalar, if_neg h1, if_neg h2, if_neg h3]]
        unfold utf8Decode
        simp only [List.cons_append, List.nil_append, List.length_cons]
        simp only [utf8DecodeGo]
        rw [if_neg (by omega), if_neg (by omega), if_neg (by omega), if_pos (by omega)]
        rw [if_pos (by
          refine ⟨?_, ?_, ?_⟩ <;> simp only [isCont, Bool.and_eq_true, decide_eq_true_eq] <;>
            omega)]
        rw [utf8DecodeGo_mono (bs.length + 3) bs.length bs (by omega) le_rfl]
        rw [utf16Units, if_neg (by omega)]
        simp only [List.cons_append, List.nil_append, List.cons.injEq, and_true, true_and]
        exact ⟨by omega, by omega⟩

theorem utf8_roundtrip_aux :
    ∀ n s, s.length ≤ n → wfUnits s = true → utf8Decode (utf8Encode s) = s := by
  intro n
  induction n with
  | zero =>
    intro s hlen _
    cases s with
    | nil => rfl
    | cons u rest => simp at hlen
  | succ n ih =>
    intro s hlen hwf
    cases s with
    | nil => rfl
    | cons u rest =>
      show utf8Decode (utf8EncodeGo (u :: rest).length (u :: rest)) = u :: rest
      simp only [List.length_cons]
      simp only [utf8EncodeGo]
      by_cases hu0 : u < 0xD800 ∨ (0xE000 ≤ u ∧ u < 0x10000)
      · simp only [if_pos hu0]
        have hwfr : wfUnits rest = true := by
          unfold wfUnits at hwf; rw [if_pos hu0] at hwf; exact hwf
        rw [utf8Decode_scalar_append u _ (by omega),
          show utf8EncodeGo rest.length rest = utf8Encode rest from rfl,
          ih rest (by simp at hlen; omega) hwfr, utf16Units, if_pos (by omega)]
        simp
      · simp only [if_neg hu0]
        by_cases hu1 : 0xD800 ≤ u ∧ u < 0xDC00
        · simp only [if_pos hu1.2]
          cases rest with
          | nil =>
            unfold wfUnits at hwf
            rw [if_neg hu0, if_pos hu1] at hwf
            exact Bool.noConfusion hwf
          | cons v rest' =>
            have hv_wf : ((0xDC00 ≤ v && v < 0xE000) && wfUnits rest') = true := by
              unfold wfUnits at hwf; rw [if_neg hu0, if_pos hu1] at hwf; exact hwf
            simp only [Bool.and_eq_true, decide_eq_true_eq] at hv_wf
            obtain ⟨⟨hv1, hv2⟩, hwfr'⟩ := hv_wf
            simp only [if_pos (show 0xDC00 ≤ v ∧ v < 0xE000 from ⟨hv1, hv2⟩)]
            rw [utf8EncodeGo_mono (v :: rest').length rest'.length rest' (by simp) le_rfl]
            rw [show utf8EncodeGo rest'.length rest' = utf8Encode rest' from rfl]
            rw [utf8Decode_scalar_append _ _ (by right; constructor <;> omega)]
            rw [ih rest' (by simp at hlen; omega) hwfr']
            rw [utf16Units, if_neg (by omega)]
            simp only [List.cons_append, List.nil_append, List.cons.injEq, and_true, true_and]
            exact ⟨by omega, by omega⟩
        · exfalso
          unfold wfUnits at hwf
          rw [if_neg hu0, if_neg hu1] at hwf
          exact Bool.noConfusion hwf

/-- The UTF-8 round trip on well-formed (lone-surrogate-free) strings:
`TextDecoder` inverts `TextEncoder`. -/
theorem utf8_roundtrip (s : List Nat) (hwf : wfUnits s = true) :
    utf8Decode (utf8Encode s) = s :=
  utf8_roundtrip_aux s.length s le_rfl hwf

/-! ## Lemmas: the encrypt/decrypt pipeline -/

theorem take_len_append (l1 l2 : List Nat) (n : Nat) (h : l1.length = n) :
    (l1 ++ l2).take n = l1 := by
  subst h; exact List.take_left l1 l2

theorem drop_len_append (l1 l2 : List Nat) (n : Nat) (h : l1.length = n) :
    (l1 ++ l2).drop n = l2 := by
  subst h; exact List.drop_left l1 l2

theorem gcmTag_length (k : AesKey) (iv p : List Nat) : (gcmTag k iv p).length = 16 := by
  simp [gcmTag]

theorem gcmTag_lt (k : AesKey) (iv p : List Nat) : ∀ b ∈ gcmTag k iv p, b < 256 := by
  intro b hb
  simp only [gcmTag, List.mem_cons, List.mem_replicate] at hb
  rcases hb with rfl | ⟨-, rfl⟩
  · exact Nat.mod_lt _ (by omega)
  · omega

theorem subtleEncrypt_length (k : AesKey) (iv p : List Nat) :
    (subtleEncrypt k iv p).length = p.length + 16 := by
  simp [subtleEncrypt, gcmTag]

theorem subtleEncrypt_lt (k : AesKey) (iv p : List Nat) (hp : ∀ b ∈ p, b < 256) :
    ∀ b ∈ subtleEncrypt k iv p, b < 256 := by
  intro b hb
  rcases List.mem_append.1 hb with h | h
  · exact hp b h
  · exact gcmTag_lt k iv p b h

/-- The ideal AEAD round trip: decryption accepts a genuine encryption
and returns its plaintext. -/
theorem subtle_roundtrip (k : AesKey) (iv p : List Nat) :
    subtleDecrypt k iv (subtleEncrypt k iv p) = some p := by
  have hlen : (subtleEncrypt k iv p).length = p.length + 16 := subtleEncrypt_length k iv p
  have htake : (subtleEncrypt k iv p).take ((subtleEncrypt k iv p).length - 16) = p := by
    rw [hlen, Nat.add_sub_cancel]
    exact take_len_append p _ p.length rfl
  unfold subtleDecrypt
  rw [if_pos (by omega), htake, if_pos rfl]

theorem wfUnits_lt : ∀ s, wfUnits s = true → ∀ u ∈ s, u < 0x10000 := by
  intro s
  induction s using wfUnits.induct with
  | case1 => intro _ u hu; exact absurd hu (List.not_mem_nil u)
  | case2 u rest h ih =>
    intro hwf x hx
    unfold wfUnits at hwf
    rw [if_pos h] at hwf
    rcases List.mem_cons.1 hx with rfl | hx
    · omega
    · exact ih hwf x hx
  | case3 u h1 h2 v rest' ih =>
    intro hwf x hx
    unfold wfUnits at hwf
    rw [if_neg h1, if_pos h2] at hwf
    simp only [Bool.and_eq_true, decide_eq_true_eq] at hwf
    rcases List.mem_cons.1 hx with rfl | hx
    · omega
    · rcases List.mem_cons.1 hx with rfl | hx
      · omega
      · exact ih hwf.2 x hx
  | case4 u h1 h2 =>
    intro hwf
    unfold wfUnits at hwf
    rw [if_neg h1, if_pos h2] at hwf
    exact Bool.noConfusion hwf
  | case5 u rest h1 h2 =>
    intro hwf
    unfold wfUnits at hwf
    rw [if_neg h1, if_neg h2] at hwf
    exact Bool.noConfusion hwf

/-- The byte-level decrypt of a well-formed record recovers the decoded
plaintext bytes. -/
theorem decryptCombined_encrypt (kb : JSString) (salt iv pbytes : List Nat)
    (hs : salt.length = 16) (hiv : iv.length = 12) :
    CryptoUtils.decryptCombined ⟨kb⟩
        (salt ++ iv ++ subtleEncrypt (deriveKey kb salt) iv pbytes)
      = some (utf8Decode pbytes) := by
  have h1 : (salt ++ iv ++ subtleEncrypt (deriveKey kb salt) iv pbytes).take 16 = salt := by
    rw [List.append_assoc]; exact take_len_append salt _ 16 hs
  have h2 : ((salt ++ iv ++ subtleEncrypt (deriveKey kb salt) iv pbytes).drop 16).take 12
      = iv := by
    rw [List.append_assoc, drop_len_append salt _ 16 hs]
    exact take_len_append iv _ 12 hiv
  have h3 : (salt ++ iv ++ subtleEncrypt (deriveKey kb salt) iv pbytes).drop 28
      = subtleEncrypt (deriveKey kb salt) iv pbytes :=
    drop_len_append (salt ++ iv) _ 28 (by simp [hs, hiv])
  unfold CryptoUtils.decryptCombined
  rw [h1, h2, h3, subtle_roundtrip]
  rfl

/-- All bytes of an encoded record are bytes. -/
theorem record_bytes_lt (kb : JSString) (salt iv : List Nat) (P : JSString)
    (hsB : ∀ b ∈ salt, b < 256) (hivB : ∀ b ∈ iv, b < 256) (hP : ∀ u ∈ P, u < 0x10000) :
    ∀ b ∈ salt ++ iv ++ subtleEncrypt (deriveKey kb salt) iv (stringToBuffer P), b < 256 := by
  intro b hb
  rcases List.mem_append.1 hb with h | h
  · rcases List.mem_append.1 h with h' | h'
    · exact hsB b h'
    · exact hivB b h'
  · exact subtleEncrypt_lt _ _ _ (utf8Encode_lt P hP) b h

/-- **Round trip of the vault cipher** for well-formed plaintexts: with
the same key base, fresh 16-byte salt and 12-byte iv, `decrypt` inverts
`encrypt`. -/
theorem decrypt_encrypt (kb : JSString) (salt iv : List Nat) (P : JSString)
    (hs : salt.length = 16) (hsB : ∀ b ∈ salt, b < 256)
    (hiv : iv.length = 12) (hivB : ∀ b ∈ iv, b < 256)
    (hP : wfUnits P = true) :
    CryptoUtils.decrypt ⟨kb⟩ (CryptoUtils.encrypt ⟨kb⟩ salt iv P) = some P := by
  unfold CryptoUtils.encrypt CryptoUtils.decrypt
  rw [base64_roundtrip _ (record_bytes_lt kb salt iv P hsB hivB (wfUnits_lt P hP))]
  show CryptoUtils.decryptCombined ⟨kb⟩ _ = some P
  rw [decryptCombined_encrypt kb salt iv (stringToBuffer P) hs hiv]
  rw [show stringToBuffer P = utf8Encode P from rfl, utf8_roundtrip P hP]

/-! ## Lemmas: tamper detection -/

theorem take_28_add (X : List Nat) (n : Nat) :
    X.take (28 + n) = X.take 16 ++ ((X.drop 16).take 12 ++ (X.drop 28).take n) := by
  rw [show 28 + n = 16 + (12 + n) by omega, List.take_add, List.take_add, List.drop_drop]

/-- **Single-byte tamper detection**, byte level: if the decoded record of
a genuine encryption is split as `pre ++ old :: post` and the byte `old`
is replaced by any other byte `new`, the modified record fails AEAD
verification. -/
theorem decryptCombined_tamper (kb : JSString) (salt iv : List Nat) (P : JSString)
    (pre post : List Nat) (old new : Nat)
    (hs : salt.length = 16) (hsB : ∀ b ∈ salt, b < 256)
    (hiv : iv.length = 12) (hivB : ∀ b ∈ iv, b < 256)
    (hP : ∀ u ∈ P, u < 0x10000)
    (hrec : salt ++ iv ++ subtleEncrypt (deriveKey kb salt) iv (stringToBuffer P)
      = pre ++ old :: post)
    (hnewB : new < 256) (hne : new ≠ old) :
    CryptoUtils.decryptCombined ⟨kb⟩ (pre ++ new :: post) = none := by
  set pb := stringToBuffer P with hpb
  have hold : old < 256 :=
    record_bytes_lt kb salt iv P hsB hivB hP old (by rw [hrec]; simp)
  have hbodylen : (salt ++ iv ++ pb).length = 28 + pb.length := by simp [hs, hiv]; omega
  have hsplit : salt ++ iv ++ subtleEncrypt (deriveKey kb salt) iv pb
      = (salt ++ iv ++ pb) ++ gcmTag (deriveKey kb salt) iv pb := by
    simp [subtleEncrypt, List.append_assoc]
  have hL : (pre ++ old :: post).length = 44 + pb.length := by
    rw [← hrec]
    simp [subtleEncrypt_length, hs, hiv]
    omega
  have hpre_post : pre.length + post.length + 1 = 44 + pb.length := by
    simpa using hL
  have htagB : (pre ++ old :: post).drop (28 + pb.length)
      = ((utf8Encode kb).sum + salt.sum + iv.sum + pb.sum) % 256 :: List.replicate 15 0 := by
    rw [← hrec, hsplit, drop_len_append _ _ _ hbodylen]
    rfl
  have hbodyB : (pre ++ old :: post).take (28 + pb.length) = salt ++ iv ++ pb := by
    rw [← hrec, hsplit, take_len_append _ _ _ hbodylen]
  have hctlen : ((pre ++ new :: post).drop 28).length = 16 + pb.length := by
    simp
    omega
  have hfail : ¬(subtleEncrypt (deriveKey kb ((pre ++ new :: post).take 16))
      (((pre ++ new :: post).drop 16).take 12)
      (((pre ++ new :: post).drop 28).take pb.length)
      = (pre ++ new :: post).drop 28) := by
    intro heq
    have hctsplit : (pre ++ new :: post).drop 28
        = ((pre ++ new :: post).drop 28).take pb.length
          ++ (pre ++ new :: post).drop (28 + pb.length) := by
      conv_lhs => rw [← List.take_append_drop pb.length ((pre ++ new :: post).drop 28)]
      rw [List.drop_drop]
    have heq3 : ((pre ++ new :: post).drop 28).take pb.length
          ++ gcmTag (deriveKey kb ((pre ++ new :: post).take 16))
            (((pre ++ new :: post).drop 16).take 12)
            (((pre ++ new :: post).drop 28).take pb.length)
        = ((pre ++ new :: post).drop 28).take pb.length
          ++ (pre ++ new :: post).drop (28 + pb.length) := heq.trans hctsplit
    have htagval : gcmTag (deriveKey kb ((pre ++ new :: post).take 16))
        (((pre ++ new :: post).drop 16).take 12)
        (((pre ++ new :: post).drop 28).take pb.length)
        = (pre ++ new :: post).drop (28 + pb.length) := List.append_cancel_left heq3
    have hdigest : gcmTag (deriveKey kb ((pre ++ new :: post).take 16))
        (((pre ++ new :: post).drop 16).take 12)
        (((pre ++ new :: post).drop 28).take pb.length)
        = ((utf8Encode kb).sum + ((pre ++ new :: post).take (28 + pb.length)).sum) % 256
          :: List.replicate 15 0 := by
      unfold gcmTag deriveKey
      rw [take_28_add (pre ++ new :: post) pb.length]
      simp only [List.sum_append]
      congr 1
      omega
    rcases Nat.lt_or_ge pre.length (28 + pb.length) with hcase | hcase
    · -- the modified byte sits in the authenticated body
      have htke : ∀ x : Nat, (pre ++ x :: post).take (28 + pb.length)
          = pre ++ x :: post.take (28 + pb.length - pre.length - 1) := by
        intro x
        rw [List.take_append_eq_append_take, List.take_of_length_le (by omega),
          show 28 + pb.length - pre.length = (28 + pb.length - pre.length - 1) + 1 by omega,
          List.take_succ_cons, Nat.add_sub_cancel]
      have hdrp : ∀ x : Nat, (pre ++ x :: post).drop (28 + pb.length)
          = post.drop (28 + pb.length - pre.length - 1) := by
        intro x
        rw [List.drop_append_eq_append_drop, List.drop_of_length_le (by omega),
          show 28 + pb.length - pre.length = (28 + pb.length - pre.length - 1) + 1 by omega,
          List.drop_succ_cons, List.nil_append, Nat.add_sub_cancel]
      have h1 : ((utf8Encode kb).sum + ((pre ++ new :: post).take (28 + pb.length)).sum) % 256
            :: List.replicate 15 0
          = ((utf8Encode kb).sum + salt.sum + iv.sum + pb.sum) % 256
            :: List.replicate 15 0 :=
        hdigest.symm.trans (htagval.trans ((hdrp new).trans ((hdrp old).symm.trans htagB)))
      injection h1 with h4 h5
      rw [htke new] at h4
      have h2 : salt ++ iv ++ pb = pre ++ old :: post.take (28 + pb.length - pre.length - 1) := by
        rw [← hbodyB, htke old]
      have h3 := congrArg List.sum h2
      simp only [List.sum_append, List.sum_cons] at h3 h4
      omega
    · -- the modified byte sits in the 16-byte tag
      have htke2 : ∀ x : Nat, (pre ++ x :: post).take (28 + pb.length)
          = pre.take (28 + pb.length) := by
        intro x
        rw [List.take_append_eq_append_take, show 28 + pb.length - pre.length = 0 by omega]
        simp
      have hdrp2 : ∀ x : Nat, (pre ++ x :: post).drop (28 + pb.length)
          = pre.drop (28 + pb.length) ++ x :: post := by
        intro x
        rw [List.drop_append_eq_append_drop, show 28 + pb.length - pre.length = 0 by omega]
        simp
      have hsum_eq : (pre.take (28 + pb.length)).sum = (salt ++ iv ++ pb).sum := by
        rw [← htke2 old, hbodyB]
      have fact1 : pre.drop (28 + pb.length) ++ old :: post
          = ((utf8Encode kb).sum + salt.sum + iv.sum + pb.sum) % 256 :: List.replicate 15 0 := by
        rw [← hdrp2 old, htagB]
      have fact2 : ((utf8Encode kb).sum + salt.sum + iv.sum + pb.sum) % 256
            :: List.replicate 15 0
          = pre.drop (28 + pb.length) ++ new :: post := by
        have fact2a : ((utf8Encode kb).sum
              + ((pre ++ new :: post).take (28 + pb.length)).sum) % 256
              :: List.replicate 15 0
            = pre.drop (28 + pb.length) ++ new :: post := by
          rw [← hdigest, htagval, hdrp2 new]
        rw [← fact2a, htke2 new, hsum_eq]
        simp only [List.sum_append]
        congr 2
        omega
      cases hdnil : pre.drop (28 + pb.length) with
      | nil =>
        rw [hdnil, List.nil_append] at fact1 fact2
        injection fact1 with e1 e1'
        injection fact2 with e2 e2'
        omega
      | cons dh dt =>
        rw [hdnil, List.cons_append] at fact1 fact2
        injection fact1 with e1 e1'
        injection fact2 with e2 e2'
        have hold0 : old = 0 := List.eq_of_mem_replicate (a := (0 : Nat)) (n := 15)
          (by rw [← e1']; simp)
        have hnew0 : new = 0 := List.eq_of_mem_replicate (a := (0 : Nat)) (n := 15)
          (by rw [e2']; simp)
        omega
  unfold CryptoUtils.decryptCombined
  have hdec : subtleDecrypt (deriveKey kb ((pre ++ new :: post).take 16))
      (((pre ++ new :: post).drop 16).take 12) ((pre ++ new :: post).drop 28) = none := by
    unfold subtleDecrypt
    rw [if_pos (by omega), hctlen,
      show 16 + pb.length - 16 = pb.length by omega, if_neg hfail]
  rw [hdec]

/-! ## Lemmas: record distinctness under fresh salts -/

/-- Two records encrypted under different salts are different strings:
`bufferToBase64` is injective on byte buffers (by the round trip) and
the salt is the first 16 bytes of the decoded record. -/
theorem encrypt_ne_of_salt_ne (kb : JSString) (salt1 iv1 salt2 iv2 : List Nat) (P : JSString)
    (hs1 : salt1.length = 16) (hs1B : ∀ b ∈ salt1, b < 256)
    (hiv1 : iv1.length = 12) (hiv1B : ∀ b ∈ iv1, b < 256)
    (hs2 : salt2.length = 16) (hs2B : ∀ b ∈ salt2, b < 256)
    (hiv2 : iv2.length = 12) (hiv2B : ∀ b ∈ iv2, b < 256)
    (hP : ∀ u ∈ P, u < 0x10000) (hfresh : salt1 ≠ salt2) :
    CryptoUtils.encrypt ⟨kb⟩ salt1 iv1 P ≠ CryptoUtils.encrypt ⟨kb⟩ salt2 iv2 P := by
  intro h
  have h1 := base64_roundtrip _ (record_bytes_lt kb salt1 iv1 P hs1B hiv1B hP)
  have h2 := base64_roundtrip _ (record_bytes_lt kb salt2 iv2 P hs2B hiv2B hP)
  have hB : salt1 ++ iv1 ++ subtleEncrypt (deriveKey kb salt1) iv1 (stringToBuffer P)
      = salt2 ++ iv2 ++ subtleEncrypt (deriveKey kb salt2) iv2 (stringToBuffer P) := by
    have := (h1.symm.trans (congrArg base64ToBuffer h)).trans h2
    exact Option.some.inj this
  apply hfresh
  have := congrArg (List.take 16) hB
  rwa [List.append_assoc, List.append_assoc, take_len_append _ _ 16 hs1,
    take_len_append _ _ 16 hs2] at this

/-! ## The claims -/

/-- **C1** (amended): for every *well-formed* plaintext string P — every JS
string without unpaired surrogate code units, which includes the empty
string, strings with embedded NUL characters and multi-kilobyte strings —
and every fresh 16-byte salt and 12-byte iv, running `decrypt` with the
same FingerprintSeed as `encrypt` returns P: `decrypt(encrypt(P)) = P`. -/
theorem c1_roundtrip_wellformed (kb : JSString) (salt iv : List Nat) (P : JSString)
    (hs : salt.length = 16) (hsB : ∀ b ∈ salt, b < 256)
    (hiv : iv.length = 12) (hivB : ∀ b ∈ iv, b < 256)
    (hP : wfUnits P = true) :
    CryptoUtils.decrypt ⟨kb⟩ (CryptoUtils.encrypt ⟨kb⟩ salt iv P) = some P :=
  decrypt_encrypt kb salt iv P hs hsB hiv hivB hP

/-- **C1** counterexample: the plaintext `"\uD800"` — a legal JS string
consisting of one lone surrogate — does not survive the round trip even
with an unchanged FingerprintSeed: `TextEncoder` sends the lone
surrogate to U+FFFD, so `decrypt(encrypt(P))` returns `"�" ≠ P`. -/
theorem c1_counterexample_lone_surrogate :
    CryptoUtils.decrypt ⟨[107, 98]⟩ (CryptoUtils.encrypt ⟨[107, 98]⟩ salt0 iv0 [0xD800])
      ≠ some [0xD800] := by decide

/-- Witness for C1 at concrete inputs. -/
theorem c1_roundtrip_wellformed_witness :
    salt0.length = 16 ∧ wfUnits [104, 105] = true
    ∧ CryptoUtils.decrypt ⟨[107, 98]⟩ (CryptoUtils.encrypt ⟨[107, 98]⟩ salt0 iv0 [104, 105])
      = some [104, 105] :=
  ⟨by decide, by decide,
   c1_roundtrip_wellformed [107, 98] salt0 iv0 [104, 105] (by decide) (by decide) (by decide)
     (by decide) (by decide)⟩

/-- **C6** (amended): for *every* plaintext P (any JS string, i.e. any
code-unit sequence), two `encrypt` calls with the same P but fresh
(distinct) random salts yield two different EncryptedRecords; and for
*well-formed* P (no unpaired surrogates) each of the two records
independently decrypts back to P.  (Only the decrypt-back clauses need
well-formedness, for the same reason as C1; the distinctness clause
holds unconditionally over the JS-string domain.) -/
theorem c6_fresh_salt_distinct_records (kb : JSString)
    (salt1 iv1 salt2 iv2 : List Nat) (P : JSString)
    (hs1 : salt1.length = 16) (hs1B : ∀ b ∈ salt1, b < 256)
    (hiv1 : iv1.length = 12) (hiv1B : ∀ b ∈ iv1, b < 256)
    (hs2 : salt2.length = 16) (hs2B : ∀ b ∈ salt2, b < 256)
    (hiv2 : iv2.length = 12) (hiv2B : ∀ b ∈ iv2, b < 256)
    (hP : ∀ u ∈ P, u < 0x10000) (hfresh : salt1 ≠ salt2) :
    CryptoUtils.encrypt ⟨kb⟩ salt1 iv1 P ≠ CryptoUtils.encrypt ⟨kb⟩ salt2 iv2 P
    ∧ (wfUnits P = true →
        CryptoUtils.decrypt ⟨kb⟩ (CryptoUtils.encrypt ⟨kb⟩ salt1 iv1 P) = some P)
    ∧ (wfUnits P = true →
        CryptoUtils.decrypt ⟨kb⟩ (CryptoUtils.encrypt ⟨kb⟩ salt2 iv2 P) = some P) :=
  ⟨encrypt_ne_of_salt_ne kb salt1 iv1 salt2 iv2 P hs1 hs1B hiv1 hiv1B hs2 hs2B hiv2 hiv2B
     hP hfresh,
   fun hwf => decrypt_encrypt kb salt1 iv1 P hs1 hs1B hiv1 hiv1B hwf,
   fun hwf => decrypt_encrypt kb salt2 iv2 P hs2 hs2B hiv2 hiv2B hwf⟩

/-- **C6** counterexample: for the lone-surrogate plaintext `"\uDC00"`
the records do differ under fresh salts, but the record does *not*
decrypt back to P, refuting the claim's universal decrypt-back clause. -/
theorem c6_counterexample_lone_surrogate :
    CryptoUtils.decrypt ⟨[107]⟩
      (CryptoUtils.encrypt ⟨[107]⟩ (List.replicate 16 2) (List.replicate 12 3) [0xDC00])
      ≠ some [0xDC00] := by decide

/-- Witness for C6 at concrete inputs: the lone-surrogate plaintext
`"\uDC00"` exercises the unconditional distinctness clause, and the
well-formed plaintext `"h"` exercises the decrypt-back clauses. -/
theorem c6_fresh_salt_distinct_records_witness :
    (CryptoUtils.encrypt ⟨[107]⟩ salt0 iv0 [0xDC00]
      ≠ CryptoUtils.encrypt ⟨[107]⟩ (List.replicate 16 5) (List.replicate 12 7) [0xDC00])
    ∧ CryptoUtils.encrypt ⟨[107]⟩ salt0 iv0 [104]
      ≠ CryptoUtils.encrypt ⟨[107]⟩ (List.replicate 16 5) (List.replicate 12 7) [104]
    ∧ CryptoUtils.decrypt ⟨[107]⟩ (CryptoUtils.encrypt ⟨[107]⟩ salt0 iv0 [104]) = some [104]
    ∧ CryptoUtils.decrypt ⟨[107]⟩
        (CryptoUtils.encrypt ⟨[107]⟩ (List.replicate 16 5) (List.replicate 12 7) [104])
      = some [104] :=
  have h104 := c6_fresh_salt_distinct_records [107] salt0 iv0 (List.replicate 16 5)
    (List.replicate 12 7) [104] (by decide) (by decide) (by decide) (by decide) (by decide)
    (by decide) (by decide) (by decide) (by decide) (by decide)
  have hDC := c6_fresh_salt_distinct_records [107] salt0 iv0 (List.replicate 16 5)
    (List.replicate 12 7) [0xDC00] (by decide) (by decide) (by decide) (by decide) (by decide)
    (by decide) (by decide) (by decide) (by decide) (by decide)
  ⟨hDC.1, h104.1, h104.2.1 (by decide), h104.2.2 (by decide)⟩

/-- **C7** (amended): the FingerprintSeed is computed *once, by the
constructor*, and every later operation reuses that captured value; it is
never persisted to storage, and an operation's key reflects the
environment at construction time — which coincides with the environment
at call time only while the environment is unchanged. -/
theorem c7_seed_fixed_at_construction (env : Env) (salt iv : List Nat) (P rec : JSString) :
    CryptoUtils.create env = ⟨generateKeyBase env⟩
    ∧ CryptoUtils.encrypt (CryptoUtils.create env) salt iv P = encryptFreshSeed env salt iv P
    ∧ CryptoUtils.decrypt (CryptoUtils.create env) rec = decryptFreshSeed env rec :=
  ⟨rfl, rfl, rfl⟩

/-- **C7** counterexample: a vault constructed while the timezone offset
was 0 and used after the offset changed to 60 (`env2c`) does *not*
derive its key from the call-time environment: its output differs from
the fresh-seed output for `env2c`, although the claim requires them to
be equal. -/
theorem c7_counterexample_stale_seed :
    generateKeyBase env1c ≠ generateKeyBase env2c
    ∧ CryptoUtils.encrypt (CryptoUtils.create env1c) salt0 iv0 [104]
      ≠ encryptFreshSeed env2c salt0 iv0 [104] := by
  exact ⟨by decide, by decide⟩

/-- **C8**: `generateKeyBase` (the FingerprintSeed computation) never
fails: it is total, returns a nonempty seed string for every
environment — including environments with unavailable attributes — and
the referenced attributes have defined fallbacks: a missing (or zero)
`hardwareConcurrency` falls back to `'unknown'`, and an undefined
attribute renders as the empty string in the join. -/
theorem c8_keybase_total :
    (∀ env : Env, 0 < (generateKeyBase env).length)
    ∧ hcComponent none = strToUnits "unknown"
    ∧ hcComponent (some 0) = strToUnits "unknown"
    ∧ joinElem none = [] := by
  refine ⟨?_, by decide, by decide, rfl⟩
  intro env
  unfold generateKeyBase joinPipe
  simp

/-- **C2**: `getCredentials` never throws for any storage-slot contents
(it is a total function in this model): whenever decryption of the
current slot's record fails, it deletes the current slot and returns
absent; and whenever the legacy slot's content is not valid JSON (with
the current slot absent or falsy), it deletes the legacy slot and
returns absent. -/
theorem c2_getCredentials_failsafe (cu : CryptoUtils) (salt iv : List Nat) :
    (∀ st enc, st.encryptedSlot = some enc → enc ≠ [] → cu.decrypt enc = none →
      cu.getCredentials salt iv st = (none, { st with encryptedSlot := none }))
    ∧ (∀ st old, (st.encryptedSlot = none ∨ st.encryptedSlot = some []) →
      st.legacySlot = some old → old ≠ [] → jsonParse old = none →
      cu.getCredentials salt iv st = (none, { st with legacySlot := none })) := by
  constructor
  · intro st enc h1 h2 h3
    obtain ⟨es, ls⟩ := st
    obtain rfl : es = some enc := h1
    simp only [CryptoUtils.getCredentials, if_neg h2, h3]
  · intro st old h0 h1 h2 h3
    obtain ⟨es, ls⟩ := st
    obtain rfl : ls = some old := h1
    rcases h0 with h0 | h0
    · obtain rfl : es = none := h0
      simp only [CryptoUtils.getCredentials, CryptoUtils.getCredentialsLegacy, if_neg h2, h3]
    · obtain rfl : es = some [] := h0
      simp only [CryptoUtils.getCredentials, CryptoUtils.getCredentialsLegacy,
        if_pos rfl, if_neg h2, h3]
      simp

/-- Witness for C2: an unparsable current slot (`"A"`, not valid base64)
is deleted with absent returned; an unparsable legacy slot (`"x"`, not
JSON) is deleted with absent returned. -/
theorem c2_getCredentials_failsafe_witness :
    CryptoUtils.decrypt ⟨[107]⟩ [65] = none
    ∧ jsonParse [120] = none
    ∧ CryptoUtils.getCredentials ⟨[107]⟩ salt0 iv0 ⟨some [65], none⟩ = (none, ⟨none, none⟩)
    ∧ CryptoUtils.getCredentials ⟨[107]⟩ salt0 iv0 ⟨none, some [120]⟩ = (none, ⟨none, none⟩) :=
  ⟨by decide, rfl,
   (c2_getCredentials_failsafe ⟨[107]⟩ salt0 iv0).1 ⟨some [65], none⟩ [65] rfl (by decide)
     (by decide),
   (c2_getCredentials_failsafe ⟨[107]⟩ salt0 iv0).2 ⟨none, some [120]⟩ [120] (Or.inl rfl) rfl
     (by decide) rfl⟩

/-- **C9**: when the current slot decrypts successfully but the resulting
plaintext is not valid JSON, `getCredentials` deletes the current slot
and returns absent — the `JSON.parse` failure is caught by the same
handler as a decryption failure, not thrown to the caller. -/
theorem c9_invalid_json_failsafe (cu : CryptoUtils) (salt iv : List Nat) (st : Storage)
    (enc txt : JSString)
    (h1 : st.encryptedSlot = some enc) (h2 : enc ≠ [])
    (h3 : cu.decrypt enc = some txt) (h4 : jsonParse txt = none) :
    cu.getCredentials salt iv st = (none, { st with encryptedSlot := none }) := by
  obtain ⟨es, ls⟩ := st
  obtain rfl : es = some enc := h1
  simp only [CryptoUtils.getCredentials, if_neg h2, h3, h4]

/-- Witness for C9: a genuine record of the non-JSON plaintext `"hi"`. -/
theorem c9_invalid_json_failsafe_witness :
    CryptoUtils.decrypt ⟨[107]⟩ (CryptoUtils.encrypt ⟨[107]⟩ salt0 iv0 [104, 105])
      = some [104, 105]
    ∧ jsonParse [104, 105] = none
    ∧ CryptoUtils.getCredentials ⟨[107]⟩ salt0 iv0
        ⟨some (CryptoUtils.encrypt ⟨[107]⟩ salt0 iv0 [104, 105]), none⟩
      = (none, ⟨none, none⟩) :=
  ⟨by decide, rfl,
   c9_invalid_json_failsafe ⟨[107]⟩ salt0 iv0
     ⟨some (CryptoUtils.encrypt ⟨[107]⟩ salt0 iv0 [104, 105]), none⟩
     (CryptoUtils.encrypt ⟨[107]⟩ salt0 iv0 [104, 105]) [104, 105]
     rfl (by decide) (by decide) rfl⟩

/-- **C10**: an empty-string current slot is falsy, so `getCredentials`
treats it as absent — same result as an absent slot, no decryption
attempted, nothing deleted (with an empty legacy slot the state is
returned unchanged) — while `hasStoredCredentials` counts it as present;
hence `hasStoredCredentials = true` does not imply that `getCredentials`
returns a credential set. -/
theorem c10_empty_string_slot (cu : CryptoUtils) (salt iv : List Nat) :
    (∀ leg, (cu.getCredentials salt iv ⟨some [], leg⟩).1
      = (cu.getCredentials salt iv ⟨none, leg⟩).1)
    ∧ (∀ leg, hasStoredCredentials ⟨some [], leg⟩ = true)
    ∧ cu.getCredentials salt iv ⟨some [], none⟩ = (none, ⟨some [], none⟩)
    ∧ hasStoredCredentials ⟨some [], none⟩ = true := by
  refine ⟨?_, fun leg => rfl, rfl, rfl⟩
  intro leg
  cases leg with
  | none => rfl
  | some old =>
    by_cases h : old = []
    · subst h; rfl
    · simp only [CryptoUtils.getCredentials, CryptoUtils.getCredentialsLegacy,
        if_pos rfl, if_neg h]
      cases jsonParse old <;> rfl

/-- **C3**: for every EncryptedRecord produced by `encrypt` and every
single-byte modification of its base64-decoded bytes — any position in
salt, nonce or ciphertext-plus-tag, replacing the byte by any different
byte value — `decrypt` applied to the (re-encoded) modified record fails
with a DecryptionFailure (`none`) and never returns corrupted
plaintext. -/
theorem c3_tamper_detection (kb : JSString) (salt iv : List Nat) (P : JSString)
    (pre post : List Nat) (old new : Nat)
    (hs : salt.length = 16) (hsB : ∀ b ∈ salt, b < 256)
    (hiv : iv.length = 12) (hivB : ∀ b ∈ iv, b < 256)
    (hP : ∀ u ∈ P, u < 0x10000)
    (hdecode : base64ToBuffer (CryptoUtils.encrypt ⟨kb⟩ salt iv P) = some (pre ++ old :: post))
    (hnewB : new < 256) (hne : new ≠ old) :
    CryptoUtils.decrypt ⟨kb⟩ (bufferToBase64 (pre ++ new :: post)) = none := by
  have hB := base64_roundtrip _ (record_bytes_lt kb salt iv P hsB hivB hP)
  have hrec : salt ++ iv ++ subtleEncrypt (deriveKey kb salt) iv (stringToBuffer P)
      = pre ++ old :: post := Option.some.inj (hB.symm.trans hdecode)
  have hmod : ∀ b ∈ pre ++ new :: post, b < 256 := by
    intro b hb
    rcases List.mem_append.1 hb with h | h
    · exact record_bytes_lt kb salt iv P hsB hivB hP b
        (by rw [hrec]; exact List.mem_append.2 (Or.inl h))
    · rcases List.mem_cons.1 h with rfl | h
      · exact hnewB
      · exact record_bytes_lt kb salt iv P hsB hivB hP b
          (by rw [hrec]; exact List.mem_append.2 (Or.inr (List.mem_cons.2 (Or.inr h))))
  unfold CryptoUtils.decrypt
  rw [base64_roundtrip _ hmod]
  exact decryptCombined_tamper kb salt iv P pre post old new hs hsB hiv hivB hP hrec hnewB hne

/-- Witness for C3: flipping the first byte (a salt byte, 0 → 1) of a
concrete record makes `decrypt` fail. -/
theorem c3_tamper_detection_witness :
    base64ToBuffer (CryptoUtils.encrypt ⟨[107]⟩ salt0 iv0 [104, 105])
      = some ([] ++ 0 :: recordBytes0.tail)
    ∧ (1 : Nat) ≠ 0
    ∧ CryptoUtils.decrypt ⟨[107]⟩ (bufferToBase64 ([] ++ 1 :: recordBytes0.tail)) = none :=
  ⟨by decide, by decide,
   c3_tamper_detection [107] salt0 iv0 [104, 105] [] recordBytes0.tail 0 1
     (by decide) (by decide) (by decide) (by decide) (by decide) (by decide) (by decide)
     (by decide)⟩

/-- **C4**: starting from an empty current slot and a legacy slot holding
`{"githubToken":"abc"}`, `getCredentials()` returns the credential
object `{githubToken: "abc"}`; afterwards the legacy slot is empty and
the current slot holds a valid EncryptedRecord that decrypts back to the
serialization of that same object (which parses back to it). -/
theorem c4_legacy_migration (kb : JSString) (salt iv : List Nat)
    (hs : salt.length = 16) (hsB : ∀ b ∈ salt, b < 256)
    (hiv : iv.length = 12) (hivB : ∀ b ∈ iv, b < 256) :
    CryptoUtils.getCredentials ⟨kb⟩ salt iv
        ⟨none, some (strToUnits "\x7b\x22githubToken\x22:\x22abc\x22\x7d")⟩
      = (some (Json.jobj [(strToUnits "githubToken", Json.jstr (strToUnits "abc"))]),
         ⟨some (CryptoUtils.encrypt ⟨kb⟩ salt iv
            (strToUnits "\x7b\x22githubToken\x22:\x22abc\x22\x7d")), none⟩)
    ∧ CryptoUtils.decrypt ⟨kb⟩
        (CryptoUtils.encrypt ⟨kb⟩ salt iv (strToUnits "\x7b\x22githubToken\x22:\x22abc\x22\x7d"))
      = some (strToUnits "\x7b\x22githubToken\x22:\x22abc\x22\x7d")
    ∧ jsonParse (strToUnits "\x7b\x22githubToken\x22:\x22abc\x22\x7d")
      = some (Json.jobj [(strToUnits "githubToken", Json.jstr (strToUnits "abc"))]) :=
  ⟨rfl,
   decrypt_encrypt kb salt iv _ hs hsB hiv hivB (by decide),
   rfl⟩

/-- Witness for C4 at a concrete key base, salt and iv. -/
theorem c4_legacy_migration_witness :
    CryptoUtils.getCredentials ⟨[107]⟩ salt0 iv0
        ⟨none, some (strToUnits "\x7b\x22githubToken\x22:\x22abc\x22\x7d")⟩
      = (some (Json.jobj [(strToUnits "githubToken", Json.jstr (strToUnits "abc"))]),
         ⟨some (CryptoUtils.encrypt ⟨[107]⟩ salt0 iv0
            (strToUnits "\x7b\x22githubToken\x22:\x22abc\x22\x7d")), none⟩)
    ∧ CryptoUtils.decrypt ⟨[107]⟩
        (CryptoUtils.encrypt ⟨[107]⟩ salt0 iv0 (strToUnits "\x7b\x22githubToken\x22:\x22abc\x22\x7d"))
      = some (strToUnits "\x7b\x22githubToken\x22:\x22abc\x22\x7d")
    ∧ jsonParse (strToUnits "\x7b\x22githubToken\x22:\x22abc\x22\x7d")
      = some (Json.jobj [(strToUnits "githubToken", Json.jstr (strToUnits "abc"))]) :=
  c4_legacy_migration [107] salt0 iv0 (by decide) (by decide) (by decide) (by decide)

/-- **C5**: every string `encrypt` returns is base64 whose decoding is
exactly `salt(16) ‖ nonce(12) ‖ ciphertext+tag`, in that order; and
`decrypt` parses a record by base64-decoding it and slicing bytes 0–16
as the salt, bytes 16–28 as the nonce, and the remainder as
ciphertext-plus-tag (the slice equations below). -/
theorem c5_record_layout (kb : JSString) (salt iv : List Nat) (P : JSString)
    (hs : salt.length = 16) (hsB : ∀ b ∈ salt, b < 256)
    (hiv : iv.length = 12) (hivB : ∀ b ∈ iv, b < 256)
    (hP : ∀ u ∈ P, u < 0x10000) :
    base64ToBuffer (CryptoUtils.encrypt ⟨kb⟩ salt iv P)
      = some (salt ++ iv ++ subtleEncrypt (deriveKey kb salt) iv (stringToBuffer P))
    ∧ (salt ++ iv ++ subtleEncrypt (deriveKey kb salt) iv (stringToBuffer P)).take 16 = salt
    ∧ ((salt ++ iv ++ subtleEncrypt (deriveKey kb salt) iv (stringToBuffer P)).drop 16).take 12
      = iv
    ∧ (salt ++ iv ++ subtleEncrypt (deriveKey kb salt) iv (stringToBuffer P)).drop 28
      = subtleEncrypt (deriveKey kb salt) iv (stringToBuffer P)
    ∧ (∀ rec combined, base64ToBuffer rec = some combined →
        CryptoUtils.decrypt ⟨kb⟩ rec = CryptoUtils.decryptCombined ⟨kb⟩ combined) := by
  refine ⟨?_, ?_, ?_, ?_, ?_⟩
  · exact base64_roundtrip _ (record_bytes_lt kb salt iv P hsB hivB hP)
  · rw [List.append_assoc]; exact take_len_append _ _ _ hs
  · rw [List.append_assoc, drop_len_append _ _ _ hs]; exact take_len_append _ _ _ hiv
  · exact drop_len_append _ _ _ (by simp [hs, hiv])
  · intro rec combined h
    unfold CryptoUtils.decrypt
    rw [h]

/-- Witness for C5 at concrete inputs. -/
theorem c5_record_layout_witness :
    base64ToBuffer (CryptoUtils.encrypt ⟨[107]⟩ salt0 iv0 [104, 105])
      = some (salt0 ++ iv0 ++ subtleEncrypt (deriveKey [107] salt0) iv0
          (stringToBuffer [104, 105])) :=
  (c5_record_layout [107] salt0 iv0 [104, 105] (by decide) (by decide) (by decide) (by decide)
    (by decide)).1
